import Mathlib

/-!
Verification development for the post-extraction entity-resolution and
relationship-typing engine (`reclassify_relationships.py`, `extract_clinical.py`).

The Python code is shallowly embedded: relationship-type and coarse-type
vocabularies become inductive enumerations, the rule cascade
`validate_and_correct` becomes a pure Lean function mirroring the mutation
sequence of the source, dictionaries become association lists with
insertion-order update semantics, and the graph store becomes a list of
typed-edge records.
-/

set_option maxRecDepth 10000

/-- The closed relationship-type vocabulary (`RELATIONSHIP_TYPES` in the source). -/
inductive RelType where
  | TREATS
  | PRESCRIBED
  | TAKES
  | REFERRED
  | SUPPORTS
  | FAMILY_OF
  | WORKS_AT
  | DIAGNOSED_WITH
  | TRIGGERS
  | UNCERTAIN
deriving DecidableEq, Fintype, Repr

/-- The coarse entity-type vocabulary produced by `infer_entity_type`. -/
inductive CoarseType where
  | PATIENT
  | PERSON
  | PROVIDER
  | MEDICATION
  | ORGANIZATION
  | CONDITION
  | ASSESSMENT
  | THERAPY
  | APP
  | UNKNOWN
deriving DecidableEq, Fintype, Repr

/-- Embedding of `validate_and_correct(rel_type, should_reverse, from_type, to_type)`
(`reclassify_relationships.py`, lines 255-355).  The Python function mutates
`rel_type` and `should_reverse` through seven sequential rule blocks; each
block is guarded by an equality test on the *current* `rel_type`, while
`source_type`/`target_type` are computed once at entry from the *initial*
`should_reverse`.  The sequential mutation is rendered as shadowing `let`
bindings in the same order as the source. -/
def validate_and_correct (rel_type : RelType) (should_reverse : Bool)
    (from_type to_type : CoarseType) : RelType × Bool :=
  let st := if should_reverse then (to_type, from_type) else (from_type, to_type)
  let source_type := st.1
  let target_type := st.2
  -- Rule 1: TREATS must be Provider → Patient/Person
  let r1 : RelType × Bool :=
    if rel_type = .TREATS then
      if target_type = .MEDICATION then
        (RelType.TAKES, if from_type = .MEDICATION then true else false)
      else if target_type = .PROVIDER ∧ source_type = .PROVIDER then
        (RelType.REFERRED, should_reverse)
      else if source_type = .PATIENT ∧ target_type = .PROVIDER then
        (rel_type, !should_reverse)
      else if source_type ≠ .PROVIDER ∧ target_type ≠ .PROVIDER then
        if source_type = .PATIENT ∨ source_type = .PERSON then
          (rel_type, should_reverse)
        else
          (RelType.UNCERTAIN, should_reverse)
      else (rel_type, should_reverse)
    else (rel_type, should_reverse)
  let rel_type := r1.1
  let should_reverse := r1.2
  -- Rule 2: PRESCRIBED must be Provider → Medication
  let r2 : RelType × Bool :=
    if rel_type = .PRESCRIBED then
      if source_type = .MEDICATION then (rel_type, !should_reverse)
      else if target_type = .PROVIDER then
        if source_type = .PROVIDER then (RelType.REFERRED, should_reverse)
        else (RelType.UNCERTAIN, should_reverse)
      else if target_type = .PATIENT then (RelType.TREATS, should_reverse)
      else if source_type = .PATIENT then (RelType.TAKES, should_reverse)
      else (rel_type, should_reverse)
    else (rel_type, should_reverse)
  let rel_type := r2.1
  let should_reverse := r2.2
  -- Rule 3: TAKES must be Patient/Person → Medication
  let r3 : RelType × Bool :=
    if rel_type = .TAKES then
      if source_type = .MEDICATION then (rel_type, !should_reverse)
      else if target_type ≠ .MEDICATION then
        if target_type = .PROVIDER then (RelType.TREATS, !should_reverse)
        else (RelType.UNCERTAIN, should_reverse)
      else if source_type = .PROVIDER then (RelType.PRESCRIBED, should_reverse)
      else (rel_type, should_reverse)
    else (rel_type, should_reverse)
  let rel_type := r3.1
  let should_reverse := r3.2
  -- Rule 4: WORKS_AT must be Person/Provider → Organization
  let r4 : RelType × Bool :=
    if rel_type = .WORKS_AT then
      if source_type = .ORGANIZATION ∧
          (target_type = .PROVIDER ∨ target_type = .PATIENT ∨
           target_type = .PERSON ∨ target_type = .UNKNOWN) then
        (rel_type, !should_reverse)
      else if target_type ≠ .ORGANIZATION then
        if source_type = .ORGANIZATION then (rel_type, !should_reverse)
        else (RelType.UNCERTAIN, should_reverse)
      else (rel_type, should_reverse)
    else (rel_type, should_reverse)
  let rel_type := r4.1
  let should_reverse := r4.2
  -- Rule 5: DIAGNOSED_WITH must be Patient → Condition
  let r5 : RelType × Bool :=
    if rel_type = .DIAGNOSED_WITH then
      if source_type = .CONDITION ∨ source_type = .ASSESSMENT then
        (rel_type, !should_reverse)
      else if target_type ≠ .CONDITION ∧ target_type ≠ .ASSESSMENT then
        (RelType.UNCERTAIN, should_reverse)
      else (rel_type, should_reverse)
    else (rel_type, should_reverse)
  let rel_type := r5.1
  let should_reverse := r5.2
  -- Rule 6: SUPPORTS - supporter → supported (person → person)
  let rel_type :=
    if rel_type = .SUPPORTS ∧ (target_type = .MEDICATION ∨ target_type = .ORGANIZATION) then
      RelType.UNCERTAIN
    else rel_type
  -- Rule 7: FAMILY_OF - person → person
  let rel_type :=
    if rel_type = .FAMILY_OF ∧
        (source_type = .MEDICATION ∨ source_type = .ORGANIZATION ∨
         target_type = .MEDICATION ∨ target_type = .ORGANIZATION) then
      RelType.UNCERTAIN
    else rel_type
  (rel_type, should_reverse)

/-- Spec-side characterization of the inputs on which `validate_and_correct`
fails to be idempotent.  Written in terms of the effective source/target types
(after applying `should_reverse`); used only to state the amended form of the
idempotence property. -/
def idempotenceException (rel_type : RelType) (should_reverse : Bool)
    (from_type to_type : CoarseType) : Bool :=
  let s := if should_reverse then to_type else from_type
  let t := if should_reverse then from_type else to_type
  match rel_type with
  | .TREATS => decide (s = .MEDICATION ∧ t = .MEDICATION)
  | .PRESCRIBED =>
      decide ((s = .MEDICATION ∧ (t = .PATIENT ∨ t = .MEDICATION)) ∨
        (t = .PATIENT ∧ s ≠ .PROVIDER ∧ s ≠ .PATIENT ∧ s ≠ .PERSON ∧ s ≠ .MEDICATION))
  | .TAKES =>
      decide ((s = .MEDICATION ∧ (t = .MEDICATION ∨ t = .PROVIDER)) ∨
        (s = .PROVIDER ∧ t = .PROVIDER))
  | .DIAGNOSED_WITH =>
      decide ((s = .CONDITION ∨ s = .ASSESSMENT) ∧ (t = .CONDITION ∨ t = .ASSESSMENT))
  | _ => false

/-! ## Response parsing (`classify_relationship`, lines 358-430)

Python string operations are modelled over `List Char`: `str.strip` becomes
`trimChars`, `str.upper` maps `Char.toUpper`, `split("\n")` becomes
`splitOnNl`, `startswith` becomes `startsList`, substring membership (`in`)
becomes `containsList`, and `replace(pat, "")` becomes `removeAllSub`. -/

/-- ASCII whitespace stripped by Python `str.strip`. -/
def isWs (c : Char) : Bool :=
  c == ' ' || c == '\t' || c == '\n' || c == '\r' || c == '\x0b' || c == '\x0c'

def trimChars (l : List Char) : List Char :=
  ((l.dropWhile isWs).reverse.dropWhile isWs).reverse

def upperChars (l : List Char) : List Char := l.map Char.toUpper

/-- `text.split("\n")` on character lists. -/
def splitOnNl : List Char → List (List Char)
  | [] => [[]]
  | c :: t =>
    if c == '\n' then [] :: splitOnNl t
    else
      match splitOnNl t with
      | [] => [[c]]
      | l :: ls => (c :: l) :: ls

/-- `haystack.startswith(needle)` on character lists. -/
def startsList : List Char → List Char → Bool
  | [], _ => true
  | _ :: _, [] => false
  | a :: as, b :: bs => a == b && startsList as bs

/-- `needle in haystack` (substring containment) on character lists. -/
def containsList (needle : List Char) : List Char → Bool
  | [] => needle.isEmpty
  | c :: t => startsList needle (c :: t) || containsList needle t

/-- `s.replace(pat, "")`: left-to-right removal of non-overlapping occurrences. -/
def removeAllSub (pat : List Char) : List Char → List Char
  | [] => []
  | c :: t =>
    if pat.isEmpty then c :: removeAllSub pat t
    else if startsList pat (c :: t) then removeAllSub pat (t.drop (pat.length - 1))
    else c :: removeAllSub pat t
termination_by l => l.length
decreasing_by
  all_goals simp [List.length_drop]
  omega

/-- The relationship-type vocabulary in source order, paired with the
enumeration values the tokens denote (`RELATIONSHIP_TYPES`, lines 47-58). -/
def REL_VOCAB : List (String × RelType) :=
  [("TREATS", .TREATS), ("PRESCRIBED", .PRESCRIBED), ("TAKES", .TAKES),
   ("REFERRED", .REFERRED), ("SUPPORTS", .SUPPORTS), ("FAMILY_OF", .FAMILY_OF),
   ("WORKS_AT", .WORKS_AT), ("DIAGNOSED_WITH", .DIAGNOSED_WITH),
   ("TRIGGERS", .TRIGGERS), ("UNCERTAIN", .UNCERTAIN)]

def RELATIONSHIP_TYPES : List String := REL_VOCAB.map Prod.fst

/-- Parser state: `rel_type` starts `UNCERTAIN`, `should_reverse` starts `False`
(lines 393-394). -/
structure ParseSt where
  rel_type : RelType
  should_reverse : Bool
deriving DecidableEq, Repr

/-- One iteration of the line loop (lines 396-406). -/
def parseLine (st : ParseSt) (rawLine : List Char) : ParseSt :=
  let line := trimChars rawLine
  if startsList "TYPE:".data line then
    let type_value := trimChars (removeAllSub "TYPE:".data line)
    match REL_VOCAB.find? (fun p => containsList p.1.data type_value) with
    | some p => { st with rel_type := p.2 }
    | none => st
  else if startsList "DIRECTION:".data line then
    let direction_value := trimChars (removeAllSub "DIRECTION:".data line)
    { st with should_reverse := containsList "REVERSE".data direction_value }
  else st

/-- Parse `TYPE`/`DIRECTION` from the (already stripped and upper-cased)
response text, with the whole-text fallback scan (lines 392-413). -/
def parse_response_text (text : List Char) : RelType × Bool :=
  let st := (splitOnNl text).foldl parseLine ⟨RelType.UNCERTAIN, false⟩
  let rt :=
    if st.rel_type = RelType.UNCERTAIN then
      match REL_VOCAB.find? (fun p => containsList p.1.data text) with
      | some p => p.2
      | none => RelType.UNCERTAIN
    else st.rel_type
  (rt, st.should_reverse)

/-- `result.get("response", "").strip().upper()` (line 390). -/
def normalizeResponse (body : String) : List Char :=
  upperChars (trimChars body.data)

/-- Outcome of the HTTP call to the text-generation collaborator: the
`try`/`except` structure of lines 373-430 distinguishes a timeout, any other
transport/parse failure, and a response carrying a status code and body. -/
inductive OllamaOutcome where
  | timeout
  | transportError
  | httpResponse (status : Nat) (body : String)

/-- Embedding of `classify_relationship` (lines 358-430): parse the
collaborator's response (or substitute the safe default on failure), then
repair the proposal with `validate_and_correct`. -/
def classify_relationship (out : OllamaOutcome) (from_type to_type : CoarseType) :
    RelType × Bool :=
  match out with
  | .timeout => (RelType.UNCERTAIN, false)
  | .transportError => (RelType.UNCERTAIN, false)
  | .httpResponse status body =>
    if status = 200 then
      let pr := parse_response_text (normalizeResponse body)
      validate_and_correct pr.1 pr.2 from_type to_type
    else (RelType.UNCERTAIN, false)

/-! ## Entity resolution (`extract_clinical.py`, lines 108-242)

Python dicts are association lists with Python's insertion-order semantics:
assignment to an existing key updates it in place, assignment to a fresh key
appends.  The embedding collaborator is abstracted, per the external-interface
boundary, as a similarity function on names: the source computes one embedding
per distinct name and a pairwise cosine matrix, so the matrix entry for
`(unique_names[i], unique_names[j])` is a function of the two name strings. -/

structure Entity where
  name : String
  etype : String := ""
  original_names : List String := []
deriving DecidableEq, Repr

abbrev NameMap := List (String × String)

def lookupS : NameMap → String → Option String
  | [], _ => none
  | p :: rest, k => if p.1 = k then some p.2 else lookupS rest k

/-- `d[k] = v` with Python dict semantics. -/
def dictSet : NameMap → String → String → NameMap
  | [], k, v => [(k, v)]
  | p :: rest, k, v => if p.1 = k then (k, v) :: rest else p :: dictSet rest k v

/-- The retroactive remap of lines 165-167: every entry whose value is the old
canonical is redirected to the new one. -/
def remapVal (d : NameMap) (oldc newc : String) : NameMap :=
  d.map fun p => if p.2 = oldc then (p.1, newc) else p

/-- `list(set(names))`, realized in first-occurrence order. -/
def uniqueNames : List String → List String
  | [] => []
  | n :: rest => n :: (uniqueNames rest).filter (fun m => m != n)

/-- `{name: name for name in names}`. -/
def identMap (names : List String) : NameMap :=
  names.foldl (fun d n => dictSet d n n) []

structure ResSt where
  cmap : NameMap
  processed : List String
deriving Repr

/-- The inner scan of lines 155-170: starting from the seed's cluster, absorb
every not-yet-processed name similar to the seed, dynamically shrinking the
canonical and retroactively remapping when a strictly shorter member joins. -/
def innerScan (sim : String → String → ℚ) (threshold : ℚ) (seed : String) :
    List String → String → ResSt → String × ResSt
  | [], canonical, st => (canonical, st)
  | name_j :: rest, canonical, st =>
    if name_j ∈ st.processed then innerScan sim threshold seed rest canonical st
    else if threshold ≤ sim seed name_j then
      let canonical2 :=
        if name_j.length < canonical.length then name_j else canonical
      let cmap2 :=
        if name_j.length < canonical.length then remapVal st.cmap canonical name_j
        else st.cmap
      innerScan sim threshold seed rest canonical2
        ⟨dictSet cmap2 name_j canonical2, name_j :: st.processed⟩
    else innerScan sim threshold seed rest canonical st

/-- The outer greedy loop of lines 145-170: each not-yet-processed name seeds a
new cluster and scans the whole distinct-name list. -/
def outerScan (sim : String → String → ℚ) (threshold : ℚ) (all : List String) :
    List String → ResSt → ResSt
  | [], st => st
  | name_i :: rest, st =>
    if name_i ∈ st.processed then outerScan sim threshold all rest st
    else
      let st1 : ResSt := ⟨dictSet st.cmap name_i name_i, name_i :: st.processed⟩
      outerScan sim threshold all rest (innerScan sim threshold name_i all name_i st1).2

/-- Append `orig` to the `original_names` of the accumulated entity named
`canonical` (the `else` branch of lines 184-190). -/
def addAlias : List Entity → String → String → List Entity
  | [], _, _ => []
  | e :: rest, canonical, orig =>
    if e.name = canonical then
      (if orig ∈ e.original_names then e
       else { e with original_names := e.original_names ++ [orig] }) :: rest
    else e :: addAlias rest canonical orig

/-- Build the deduplicated entity list (lines 172-190). -/
def buildResolved (cmap : NameMap) :
    List Entity → List String → List Entity → List Entity
  | [], _, acc => acc
  | e :: rest, seen, acc =>
    let canonical_name := (lookupS cmap e.name).getD e.name
    if canonical_name ∈ seen then
      buildResolved cmap rest seen (addAlias acc canonical_name e.name)
    else
      buildResolved cmap rest (canonical_name :: seen)
        (acc ++ [{ e with name := canonical_name, original_names := [e.name] }])

/-- Result of `resolve_entities`; `encodeCalls` counts invocations of the
embedding collaborator's `model.encode` (exactly one batched call on the main
path, none on the short-circuit paths). -/
structure ResolveResult where
  cmap : NameMap
  resolved : List Entity
  encodeCalls : Nat
deriving Repr

/-- Embedding of `resolve_entities(entities, similarity_threshold=0.85)`
(lines 115-192). -/
def resolve_entities (sim : String → String → ℚ) (entities : List Entity)
    (similarity_threshold : ℚ := mkRat 85 100) : ResolveResult :=
  if entities.length < 2 then
    { cmap := identMap (entities.map Entity.name), resolved := entities,
      encodeCalls := 0 }
  else
    let names := entities.map Entity.name
    let unique_names := uniqueNames names
    if unique_names.length < 2 then
      { cmap := identMap names, resolved := entities, encodeCalls := 0 }
    else
      let st := outerScan sim similarity_threshold unique_names unique_names ⟨[], []⟩
      { cmap := st.cmap, resolved := buildResolved st.cmap entities [] [],
        encodeCalls := 1 }

structure Relationship where
  from_name : String
  to_name : String
  rtype : String := ""
  description : String := ""
deriving DecidableEq, Repr

structure ExtractionResult where
  clinical_entities : List Entity
  semantic_entities : List Entity
  relationships : List Relationship
deriving Repr

structure ResolutionStats where
  clinical_before : Nat
  clinical_after : Nat
  clinical_merged : Nat
  semantic_before : Nat
  semantic_after : Nat
  semantic_merged : Nat
deriving Repr

structure ResolvedExtraction where
  clinical_entities : List Entity
  semantic_entities : List Entity
  relationships : List Relationship
  resolution_stats : ResolutionStats
deriving Repr

/-- `{**d1, **d2}`: `d1`'s entries in order, then `d2`'s, overriding values of
shared keys in place. -/
def dictUnion (d1 d2 : NameMap) : NameMap :=
  d2.foldl (fun acc p => dictSet acc p.1 p.2) d1

/-- The combined clinical + semantic canonical map of line 211. -/
def full_map (simC simS : String → String → ℚ) (r : ExtractionResult) : NameMap :=
  dictUnion (resolve_entities simC r.clinical_entities).cmap
    (resolve_entities simS r.semantic_entities).cmap

/-- Endpoint rewrite of lines 217-222: look each endpoint up in the combined
map, falling back to the original name when absent. -/
def rewriteRel (fm : NameMap) (rel : Relationship) : Relationship :=
  { rel with
    from_name := (lookupS fm rel.from_name).getD rel.from_name,
    to_name := (lookupS fm rel.to_name).getD rel.to_name }

/-- Embedding of `resolve_extraction_result` (lines 195-242). -/
def resolve_extraction_result (simC simS : String → String → ℚ)
    (r : ExtractionResult) : ResolvedExtraction :=
  let rc := resolve_entities simC r.clinical_entities
  let rs := resolve_entities simS r.semantic_entities
  { clinical_entities := rc.resolved
    semantic_entities := rs.resolved
    relationships := r.relationships.map (rewriteRel (full_map simC simS r))
    resolution_stats :=
      { clinical_before := r.clinical_entities.length
        clinical_after := rc.resolved.length
        clinical_merged := r.clinical_entities.length - rc.resolved.length
        semantic_before := r.semantic_entities.length
        semantic_after := rs.resolved.length
        semantic_merged := r.semantic_entities.length - rs.resolved.length } }

/-! ## Typed-edge materialization (`reclassify_relationships.py`, lines 241-252
and 494-517)

The graph store is modelled as the list of typed edges it holds; the generic
`RELATES_TO` edges are untouched by this subsystem and are not represented. -/

inductive MatOutcome where
  | Created
  | SkippedDuplicate
  | SkippedUncertain
deriving DecidableEq, Repr

structure TypedEdge where
  rel_type : RelType
  source_id : String
  target_id : String
  fact : String
  provenance : String
deriving DecidableEq, Repr

abbrev GraphStore := List TypedEdge

def matchesEdge (rel_type : RelType) (from_id to_id : String) (e : TypedEdge) : Bool :=
  e.rel_type == rel_type && e.source_id == from_id && e.target_id == to_id

/-- Embedding of `check_existing_typed_edge` (lines 241-252): the Cypher query
counts typed edges of exactly this type between exactly this ordered pair. -/
def check_existing_typed_edge (store : GraphStore) (from_id to_id : String)
    (rel_type : RelType) : Bool :=
  decide (0 < store.countP (matchesEdge rel_type from_id to_id))

/-- Embedding of `create_typed_edge` (lines 433-445). -/
def create_typed_edge (store : GraphStore) (from_id to_id : String)
    (rel_type : RelType) (fact : String) : GraphStore :=
  store ++ [{ rel_type := rel_type, source_id := from_id, target_id := to_id,
              fact := fact, provenance := "reclassified" }]

/-- The per-relation materialization step of `reclassify_all` (lines 494-517):
skip `UNCERTAIN`, orient by the corrected direction, existence-check, create. -/
def materialize_relation (store : GraphStore) (from_id to_id fact : String)
    (rel_type : RelType) (should_reverse : Bool) : MatOutcome × GraphStore :=
  if rel_type = .UNCERTAIN then (.SkippedUncertain, store)
  else
    let ids := if should_reverse then (to_id, from_id) else (from_id, to_id)
    if check_existing_typed_edge store ids.1 ids.2 rel_type then
      (.SkippedDuplicate, store)
    else (.Created, create_typed_edge store ids.1 ids.2 rel_type fact)

/-- Similarity function witnessing the failure of unconditional cluster
closure: `aa`/`cc` and `bb`/`cc` are similar, `aa`/`bb` are not. -/
def simCex (a b : String) : ℚ :=
  if a = b then 1
  else if (a = "aa" ∧ b = "bb") ∨ (a = "bb" ∧ b = "aa") then mkRat 1 2
  else mkRat 9 10

/-! ## Theorems -/

/-- Helper: no rule block fires for an `UNCERTAIN` proposal. -/
lemma validate_uncertain_fixed :
    ∀ (r : Bool) (ft tt : CoarseType),
      validate_and_correct .UNCERTAIN r ft tt = (.UNCERTAIN, r) := by
  decide

/-- C1 (counterexample).  The direction corrector is not idempotent: at
`(PRESCRIBED, False, MEDICATION, PATIENT)` the first application yields
`(PRESCRIBED, True)` but feeding that back yields `(TAKES, True)`. -/
theorem c1_idempotence_counterexample :
    validate_and_correct .PRESCRIBED false .MEDICATION .PATIENT = (.PRESCRIBED, true) ∧
    validate_and_correct .PRESCRIBED true .MEDICATION .PATIENT = (.TAKES, true) ∧
    validate_and_correct
        (validate_and_correct .PRESCRIBED false .MEDICATION .PATIENT).1
        (validate_and_correct .PRESCRIBED false .MEDICATION .PATIENT).2
        .MEDICATION .PATIENT
      ≠ validate_and_correct .PRESCRIBED false .MEDICATION .PATIENT := by
  decide

/-- C1 (amended).  The corrector is idempotent on exactly the quadruples
outside `idempotenceException`: re-applying it to its own output (with the
same `from_type`/`to_type`) returns the same pair if and only if the input is
not one of the 32 exceptional quadruples where a direction flip or retype
computed against the pre-flip effective endpoint types re-triggers a rule on
the second application. -/
theorem c1_idempotent_off_exceptions :
    ∀ (t : RelType) (r : Bool) (ft tt : CoarseType),
      (validate_and_correct
          (validate_and_correct t r ft tt).1
          (validate_and_correct t r ft tt).2 ft tt
        = validate_and_correct t r ft tt)
      ↔ idempotenceException t r ft tt = false := by
  decide

/-- C2 (counterexample).  `(TREATS, False, PROVIDER, MEDICATION)` has effective
target `MEDICATION`, yet the corrector returns `(PRESCRIBED, False)`, not type
`TAKES`: after the TREATS block retypes to TAKES, the TAKES block also fires
(the effective source is `PROVIDER`) and retypes to `PRESCRIBED`. -/
theorem c2_single_block_counterexample :
    (if false then CoarseType.PROVIDER else CoarseType.MEDICATION) = CoarseType.MEDICATION ∧
    validate_and_correct .TREATS false .PROVIDER .MEDICATION = (.PRESCRIBED, false) ∧
    (validate_and_correct .TREATS false .PROVIDER .MEDICATION).1 ≠ RelType.TAKES := by
  decide

/-- C2 (amended).  For a `TREATS` proposal whose effective target is
`MEDICATION`: if the effective source is not `PROVIDER` the result type is
`TAKES`, otherwise the TAKES rule block fires as well and the result type is
`PRESCRIBED`; in both cases the resulting reverse flag is `from_type =
MEDICATION ∧ to_type ≠ MEDICATION` (so whenever exactly one endpoint is the
medication, the non-medication endpoint becomes the source). -/
theorem c2_treats_medication_target :
    ∀ (r : Bool) (ft tt : CoarseType),
      (if r then ft else tt) = CoarseType.MEDICATION →
      validate_and_correct .TREATS r ft tt =
        (if (if r then tt else ft) = CoarseType.PROVIDER then RelType.PRESCRIBED
         else RelType.TAKES,
         decide (ft = CoarseType.MEDICATION ∧ tt ≠ CoarseType.MEDICATION)) := by
  decide

/-- Witness for `c2_treats_medication_target` at
`(TREATS, True, MEDICATION, PATIENT)`. -/
theorem c2_treats_medication_target_witness :
    validate_and_correct .TREATS true .MEDICATION .PATIENT = (.TAKES, true) :=
  (c2_treats_medication_target true .MEDICATION .PATIENT (by decide)).trans (by decide)

/-- C10 (confirmed).  `TRIGGERS` is in the closed relationship-type vocabulary
and passes through the corrector untouched for every reverse flag and every
pair of coarse endpoint types. -/
theorem c10_triggers_passthrough :
    "TRIGGERS" ∈ RELATIONSHIP_TYPES ∧
    ∀ (r : Bool) (ft tt : CoarseType),
      validate_and_correct .TRIGGERS r ft tt = (.TRIGGERS, r) := by
  constructor
  · decide
  · decide

/-! ### Association-list lemmas -/

lemma lookupS_dictSet (d : NameMap) (k v k' : String) :
    lookupS (dictSet d k v) k' = if k = k' then some v else lookupS d k' := by
  induction d with
  | nil => by_cases h : k = k' <;> simp [dictSet, lookupS, h]
  | cons p rest ih =>
    by_cases h1 : p.1 = k
    · by_cases h2 : k = k' <;> simp [dictSet, lookupS, h1, h2]
    · by_cases h2 : p.1 = k' <;> by_cases h3 : k = k' <;>
        simp_all [dictSet, lookupS]

lemma lookupS_remapVal (d : NameMap) (oldc newc k : String) :
    lookupS (remapVal d oldc newc) k
      = (lookupS d k).map (fun v => if v = oldc then newc else v) := by
  induction d with
  | nil => simp [remapVal, lookupS]
  | cons p rest ih =>
    by_cases h1 : p.1 = k <;> by_cases h2 : p.2 = oldc <;>
      simp_all [remapVal, lookupS]

lemma lookupS_mem_values (d : NameMap) (k v : String)
    (h : lookupS d k = some v) : v ∈ d.map Prod.snd := by
  induction d with
  | nil => simp [lookupS] at h
  | cons p rest ih =>
    by_cases h1 : p.1 = k
    · simp [lookupS, h1] at h
      simp [← h]
    · simp [lookupS, h1] at h
      simp [ih h]

lemma lookupS_identMap_aux (l : List String) (d : NameMap) (n : String) :
    lookupS (l.foldl (fun d m => dictSet d m m) d) n
      = if n ∈ l then some n else lookupS d n := by
  induction l generalizing d with
  | nil => simp
  | cons a l ih =>
    simp only [List.foldl_cons, ih, lookupS_dictSet, List.mem_cons]
    by_cases h2 : n ∈ l
    · simp [h2]
    · by_cases h1 : a = n
      · simp [h1, h2]
      · have h1' : ¬ n = a := fun h => h1 h.symm
        simp [h1, h1', h2]

lemma lookupS_identMap (names : List String) (n : String) :
    lookupS (identMap names) n = if n ∈ names then some n else none := by
  simp [identMap, lookupS_identMap_aux, lookupS]

lemma mem_uniqueNames (l : List String) (n : String) :
    n ∈ uniqueNames l ↔ n ∈ l := by
  induction l with
  | nil => simp [uniqueNames]
  | cons a l ih =>
    simp only [uniqueNames, List.mem_cons, List.mem_filter, bne_iff_ne, ih]
    by_cases h : n = a
    · simp [h]
    · simp [h]

/-- For a non-`UNCERTAIN` type, materialization is the existence-checked
create on the reversal-corrected ordered pair. -/
lemma materialize_relation_eq (store : GraphStore) (from_id to_id fact : String)
    (t : RelType) (rev : Bool) (ht : t ≠ RelType.UNCERTAIN) :
    materialize_relation store from_id to_id fact t rev =
      if check_existing_typed_edge store (if rev then to_id else from_id)
          (if rev then from_id else to_id) t
      then (.SkippedDuplicate, store)
      else (.Created, create_typed_edge store (if rev then to_id else from_id)
          (if rev then from_id else to_id) t fact) := by
  cases rev <;> simp only [materialize_relation, if_neg ht, Bool.false_eq_true,
    if_false, if_true]

/-- C6 (confirmed).  At-most-once materialization: for a corrected type other
than `UNCERTAIN` and a store not yet holding a `(type, source_id, target_id)`
edge for the corrected orientation, the first materialization run creates the
edge, the second run finds it via the existence check and reports a duplicate
without writing, and exactly one matching edge is left in the store. -/
theorem c6_at_most_once (store : GraphStore) (from_id to_id fact : String)
    (t : RelType) (rev : Bool) (ht : t ≠ RelType.UNCERTAIN)
    (h0 : check_existing_typed_edge store (if rev then to_id else from_id)
            (if rev then from_id else to_id) t = false) :
    (materialize_relation store from_id to_id fact t rev).1 = .Created ∧
    (materialize_relation (materialize_relation store from_id to_id fact t rev).2
        from_id to_id fact t rev).1 = .SkippedDuplicate ∧
    (materialize_relation (materialize_relation store from_id to_id fact t rev).2
        from_id to_id fact t rev).2
      = (materialize_relation store from_id to_id fact t rev).2 ∧
    ((materialize_relation store from_id to_id fact t rev).2).countP
        (matchesEdge t (if rev then to_id else from_id)
          (if rev then from_id else to_id)) = 1 := by
  have hmre1 := materialize_relation_eq store from_id to_id fact t rev ht
  rw [h0] at hmre1
  simp only [Bool.false_eq_true, if_false] at hmre1
  have hcount1 :
      (create_typed_edge store (if rev then to_id else from_id)
          (if rev then from_id else to_id) t fact).countP
        (matchesEdge t (if rev then to_id else from_id)
          (if rev then from_id else to_id)) = 1 := by
    have h00 : store.countP
        (matchesEdge t (if rev then to_id else from_id)
          (if rev then from_id else to_id)) = 0 := by
      by_contra hne
      have hpos := Nat.pos_of_ne_zero hne
      rw [check_existing_typed_edge, decide_eq_false_iff_not] at h0
      exact h0 hpos
    simp [create_typed_edge, List.countP_append, h00, List.countP_cons, matchesEdge]
  have hcheck1 : check_existing_typed_edge
      (create_typed_edge store (if rev then to_id else from_id)
        (if rev then from_id else to_id) t fact)
      (if rev then to_id else from_id) (if rev then from_id else to_id) t = true := by
    rw [check_existing_typed_edge, decide_eq_true_iff, hcount1]
    exact Nat.one_pos
  have hmre2 := materialize_relation_eq
    (create_typed_edge store (if rev then to_id else from_id)
      (if rev then from_id else to_id) t fact) from_id to_id fact t rev ht
  rw [hcheck1] at hmre2
  simp only [if_true] at hmre2
  rw [hmre1]
  simp [hmre2, hcount1]

/-- Witness for `c6_at_most_once` on the empty store. -/
theorem c6_at_most_once_witness :
    (materialize_relation [] "a" "b" "f" .TREATS false).1 = .Created ∧
    (materialize_relation (materialize_relation [] "a" "b" "f" .TREATS false).2
        "a" "b" "f" .TREATS false).1 = .SkippedDuplicate ∧
    (materialize_relation (materialize_relation [] "a" "b" "f" .TREATS false).2
        "a" "b" "f" .TREATS false).2
      = (materialize_relation [] "a" "b" "f" .TREATS false).2 ∧
    ((materialize_relation [] "a" "b" "f" .TREATS false).2).countP
        (matchesEdge .TREATS "a" "b") = 1 := by
  have h := c6_at_most_once [] "a" "b" "f" .TREATS false (by decide) (by decide)
  simpa using h

/-- C9 (confirmed).  Small-input identity: whenever the input has fewer than 2
distinct names (in particular for 0 or 1 entities), `resolve_entities` returns
the identity map over the input names, the input entity list unchanged, and
makes zero calls to the embedding collaborator's encode operation. -/
theorem c9_small_input_identity (sim : String → String → ℚ) (threshold : ℚ)
    (entities : List Entity)
    (h : (uniqueNames (entities.map Entity.name)).length < 2) :
    (∀ n ∈ entities.map Entity.name,
        lookupS (resolve_entities sim entities threshold).cmap n = some n) ∧
    (resolve_entities sim entities threshold).resolved = entities ∧
    (resolve_entities sim entities threshold).encodeCalls = 0 := by
  by_cases hlen : entities.length < 2
  · refine ⟨?_, by simp [resolve_entities, hlen], by simp [resolve_entities, hlen]⟩
    intro n hn
    simp [resolve_entities, hlen, lookupS_identMap, hn]
  · refine ⟨?_, by simp [resolve_entities, hlen, h], by simp [resolve_entities, hlen, h]⟩
    intro n hn
    simp [resolve_entities, hlen, h, lookupS_identMap, hn]

/-- Witness for `c9_small_input_identity` at a one-entity list. -/
theorem c9_small_input_identity_witness :
    lookupS (resolve_entities (fun _ _ => 0) [{ name := "x" }] 0).cmap "x" = some "x" ∧
    (resolve_entities (fun _ _ => 0) [{ name := "x" }] 0).resolved = [{ name := "x" }] ∧
    (resolve_entities (fun _ _ => 0) [{ name := "x" }] 0).encodeCalls = 0 := by
  have h := c9_small_input_identity (fun _ _ => 0) 0 [{ name := "x" }] (by decide)
  exact ⟨h.1 "x" (by decide), h.2.1, h.2.2⟩

/-- C4 (counterexample).  A relationship endpoint that appears in neither
entity list passes through the rewriter unchanged and is not a value of the
(here empty) combined canonical map, so referential integrity fails for such
endpoints. -/
theorem c4_referential_integrity_counterexample :
    (resolve_extraction_result (fun _ _ => 0) (fun _ _ => 0)
        { clinical_entities := [], semantic_entities := [],
          relationships := [{ from_name := "ghost", to_name := "ghost2" }] }).relationships
      = [{ from_name := "ghost", to_name := "ghost2" }] ∧
    "ghost" ∉ ((full_map (fun _ _ => 0) (fun _ _ => 0)
        { clinical_entities := [], semantic_entities := [],
          relationships := [{ from_name := "ghost", to_name := "ghost2" }] }).map
        Prod.snd) := by
  decide

/-- C4 (amended).  After rewriting, every relationship endpoint is either a
value of the combined canonical map, or a name absent from the map's keys that
passed through unchanged (the rewriter's identity fallback); endpoints whose
original name is a key are always rewritten into the map's range. -/
theorem c4_endpoints_in_range_or_unmapped (simC simS : String → String → ℚ)
    (r : ExtractionResult) :
    ∀ rel ∈ (resolve_extraction_result simC simS r).relationships,
      (rel.from_name ∈ (full_map simC simS r).map Prod.snd ∨
        lookupS (full_map simC simS r) rel.from_name = none) ∧
      (rel.to_name ∈ (full_map simC simS r).map Prod.snd ∨
        lookupS (full_map simC simS r) rel.to_name = none) := by
  intro rel hrel
  simp only [resolve_extraction_result, List.mem_map] at hrel
  obtain ⟨rel0, _, hrw⟩ := hrel
  subst hrw
  constructor
  · rcases h : lookupS (full_map simC simS r) rel0.from_name with _ | v
    · right
      simp [rewriteRel, h]
    · left
      simp [rewriteRel, h, lookupS_mem_values _ _ _ h]
  · rcases h : lookupS (full_map simC simS r) rel0.to_name with _ | v
    · right
      simp [rewriteRel, h]
    · left
      simp [rewriteRel, h, lookupS_mem_values _ _ _ h]

/-- Witness for `c4_endpoints_in_range_or_unmapped`: one mapped endpoint, one
unmapped endpoint. -/
theorem c4_endpoints_witness :
    (("a" : String) ∈ (full_map (fun _ _ => 0) (fun _ _ => 0)
        { clinical_entities := [{ name := "a" }], semantic_entities := [],
          relationships := [{ from_name := "a", to_name := "b" }] }).map Prod.snd ∨
      lookupS (full_map (fun _ _ => 0) (fun _ _ => 0)
        { clinical_entities := [{ name := "a" }], semantic_entities := [],
          relationships := [{ from_name := "a", to_name := "b" }] }) "a" = none) ∧
    (("b" : String) ∈ (full_map (fun _ _ => 0) (fun _ _ => 0)
        { clinical_entities := [{ name := "a" }], semantic_entities := [],
          relationships := [{ from_name := "a", to_name := "b" }] }).map Prod.snd ∨
      lookupS (full_map (fun _ _ => 0) (fun _ _ => 0)
        { clinical_entities := [{ name := "a" }], semantic_entities := [],
          relationships := [{ from_name := "a", to_name := "b" }] }) "b" = none) := by
  have h := c4_endpoints_in_range_or_unmapped (fun _ _ => 0) (fun _ _ => 0)
    { clinical_entities := [{ name := "a" }], semantic_entities := [],
      relationships := [{ from_name := "a", to_name := "b" }] }
    { from_name := "a", to_name := "b" } (by decide)
  simpa using h

/-! ### Parser lemmas for C8 -/

/-- A line on which neither field fires leaves the parse state unchanged. -/
lemma parseLine_id (st : ParseSt) (l : List Char)
    (h1 : startsList "TYPE:".data (trimChars l) = true →
      ∀ p ∈ REL_VOCAB,
        containsList p.1.data
          (trimChars (removeAllSub "TYPE:".data (trimChars l))) = false)
    (h2 : startsList "DIRECTION:".data (trimChars l) = false) :
    parseLine st l = st := by
  unfold parseLine
  by_cases hT : startsList "TYPE:".data (trimChars l) = true
  · have hnone : REL_VOCAB.find?
        (fun p => containsList p.1.data
          (trimChars (removeAllSub "TYPE:".data (trimChars l)))) = none :=
      List.find?_eq_none.mpr fun p hp => by simp [h1 hT p hp]
    simp [hT, hnone]
  · simp [hT, h2]

/-- A line that is not a `DIRECTION:` line leaves `should_reverse` unchanged. -/
lemma parseLine_snd (st : ParseSt) (l : List Char)
    (h2 : startsList "DIRECTION:".data (trimChars l) = false) :
    (parseLine st l).should_reverse = st.should_reverse := by
  unfold parseLine
  by_cases hT : startsList "TYPE:".data (trimChars l) = true
  · cases hfind : REL_VOCAB.find?
        (fun p => containsList p.1.data
          (trimChars (removeAllSub "TYPE:".data (trimChars l)))) <;>
      simp [hT, hfind]
  · simp [hT, h2]

lemma foldl_parseLine_id (lines : List (List Char)) (st : ParseSt)
    (h : ∀ l ∈ lines,
      (startsList "TYPE:".data (trimChars l) = true →
        ∀ p ∈ REL_VOCAB,
          containsList p.1.data
            (trimChars (removeAllSub "TYPE:".data (trimChars l))) = false) ∧
      startsList "DIRECTION:".data (trimChars l) = false) :
    lines.foldl parseLine st = st := by
  induction lines generalizing st with
  | nil => rfl
  | cons l rest ih =>
    have hl := h l (List.mem_cons_self l rest)
    rw [List.foldl_cons, parseLine_id st l hl.1 hl.2]
    exact ih st fun m hm => h m (List.mem_cons_of_mem l hm)

lemma foldl_parseLine_snd (lines : List (List Char)) (st : ParseSt)
    (h : ∀ l ∈ lines, startsList "DIRECTION:".data (trimChars l) = false) :
    (lines.foldl parseLine st).should_reverse = st.should_reverse := by
  induction lines generalizing st with
  | nil => rfl
  | cons l rest ih =>
    rw [List.foldl_cons]
    rw [ih (parseLine st l) fun m hm => h m (List.mem_cons_of_mem l hm)]
    exact parseLine_snd st l (h l (List.mem_cons_self l rest))

/-- C8 (confirmed).  Safe classification defaults: the embedding of
`classify_relationship` is a total function (the Python `try`/`except` never
lets an exception escape); on collaborator timeout, transport failure, or a
non-200 status it returns `(UNCERTAIN, False)`; a response with no
`DIRECTION:` line parses with `should_reverse = False` (direction defaults to
KEEP); and a 200 response whose text yields no recognizable `TYPE:` field and
contains no vocabulary token for the fallback scan classifies as
`(UNCERTAIN, False)`. -/
theorem c8_safe_defaults (ft tt : CoarseType) (status : Nat) (body : String) :
    classify_relationship .timeout ft tt = (.UNCERTAIN, false) ∧
    classify_relationship .transportError ft tt = (.UNCERTAIN, false) ∧
    (status ≠ 200 →
      classify_relationship (.httpResponse status body) ft tt = (.UNCERTAIN, false)) ∧
    ((∀ l ∈ splitOnNl (normalizeResponse body),
        startsList "DIRECTION:".data (trimChars l) = false) →
      (parse_response_text (normalizeResponse body)).2 = false) ∧
    ((∀ l ∈ splitOnNl (normalizeResponse body),
        (startsList "TYPE:".data (trimChars l) = true →
          ∀ p ∈ REL_VOCAB,
            containsList p.1.data
              (trimChars (removeAllSub "TYPE:".data (trimChars l))) = false) ∧
        startsList "DIRECTION:".data (trimChars l) = false) →
      (∀ p ∈ REL_VOCAB, containsList p.1.data (normalizeResponse body) = false) →
      classify_relationship (.httpResponse 200 body) ft tt = (.UNCERTAIN, false)) := by
  refine ⟨rfl, rfl, ?_, ?_, ?_⟩
  · intro hs
    simp [classify_relationship, hs]
  · intro hdir
    simp [parse_response_text, foldl_parseLine_snd _ _ hdir]
  · intro hlines hfb
    have hfold : (splitOnNl (normalizeResponse body)).foldl parseLine
        ⟨RelType.UNCERTAIN, false⟩ = ⟨RelType.UNCERTAIN, false⟩ :=
      foldl_parseLine_id _ _ hlines
    have hnone : REL_VOCAB.find?
        (fun p => containsList p.1.data (normalizeResponse body)) = none :=
      List.find?_eq_none.mpr fun p hp => by simp [hfb p hp]
    simp [classify_relationship, parse_response_text, hfold, hnone,
      validate_uncertain_fixed]

/-- Witness for `c8_safe_defaults` at a concrete unparseable body. -/
theorem c8_safe_defaults_witness :
    classify_relationship (.httpResponse 500 "HELLO") .PATIENT .PATIENT
      = (.UNCERTAIN, false) ∧
    classify_relationship (.httpResponse 200 "HELLO") .PATIENT .PATIENT
      = (.UNCERTAIN, false) := by
  have h := c8_safe_defaults .PATIENT .PATIENT 500 "HELLO"
  exact ⟨h.2.2.1 (by decide), h.2.2.2.2 (by decide) (by decide)⟩

/-! ### Greedy-clustering invariants -/

/-- Unified description of the lookups after one join step of the inner scan:
the joining name maps to the (possibly updated) canonical, and every existing
entry's value passes through the retroactive remap. -/
lemma lookupS_joinStep (d : NameMap) (canonical nj x : String) :
    lookupS (dictSet
        (if nj.length < canonical.length then remapVal d canonical nj else d)
        nj (if nj.length < canonical.length then nj else canonical)) x
      = if nj = x then some (if nj.length < canonical.length then nj else canonical)
        else (lookupS d x).map
          (fun v => if v = canonical
            then (if nj.length < canonical.length then nj else canonical) else v) := by
  by_cases L : nj.length < canonical.length
  · simp [L, lookupS_dictSet, lookupS_remapVal]
  · simp only [L, if_false]
    rw [lookupS_dictSet]
    by_cases h : nj = x
    · simp [h]
    · simp only [h, if_false]
      cases hv : lookupS d x with
      | none => rfl
      | some v => by_cases hvc : v = canonical <;> simp [hvc]

lemma innerScan_processed_mono (sim : String → String → ℚ) (t : ℚ) (seed : String)
    (js : List String) :
    ∀ (canonical : String) (st : ResSt) (x : String), x ∈ st.processed →
      x ∈ (innerScan sim t seed js canonical st).2.processed := by
  induction js with
  | nil => intro canonical st x hx; exact hx
  | cons nj rest ih =>
    intro canonical st x hx
    rw [innerScan]
    by_cases h1 : nj ∈ st.processed
    · rw [if_pos h1]
      exact ih canonical st x hx
    · rw [if_neg h1]
      by_cases h2 : t ≤ sim seed nj
      · rw [if_pos h2]
        exact ih _ _ x (List.mem_cons_of_mem _ hx)
      · rw [if_neg h2]
        exact ih canonical st x hx

/-- Inner-scan invariant bundle: the key set mirrors the processed set, every
value of the map is a key mapping to itself, and the current canonical maps to
itself. -/
lemma innerScan_invariants (sim : String → String → ℚ) (t : ℚ) (seed : String)
    (js : List String) :
    ∀ (canonical : String) (st : ResSt),
      (∀ z, (lookupS st.cmap z).isSome = true ↔ z ∈ st.processed) →
      (∀ k v, lookupS st.cmap k = some v → lookupS st.cmap v = some v) →
      lookupS st.cmap canonical = some canonical →
      (∀ z, (lookupS (innerScan sim t seed js canonical st).2.cmap z).isSome = true
          ↔ z ∈ (innerScan sim t seed js canonical st).2.processed) ∧
      (∀ k v, lookupS (innerScan sim t seed js canonical st).2.cmap k = some v →
        lookupS (innerScan sim t seed js canonical st).2.cmap v = some v) ∧
      lookupS (innerScan sim t seed js canonical st).2.cmap
          (innerScan sim t seed js canonical st).1
        = some (innerScan sim t seed js canonical st).1 := by
  induction js with
  | nil =>
    intro canonical st hkeys hself hcan
    exact ⟨hkeys, hself, hcan⟩
  | cons nj rest ih =>
    intro canonical st hkeys hself hcan
    rw [innerScan]
    by_cases h1 : nj ∈ st.processed
    · rw [if_pos h1]
      exact ih canonical st hkeys hself hcan
    · rw [if_neg h1]
      by_cases h2 : t ≤ sim seed nj
      · rw [if_pos h2]
        have hfresh : lookupS st.cmap nj = none := by
          cases hlk : lookupS st.cmap nj with
          | none => rfl
          | some v => exact absurd ((hkeys nj).mp (by simp [hlk])) h1
        have hcanProc : canonical ∈ st.processed := (hkeys canonical).mp (by simp [hcan])
        have hnjne : nj ≠ canonical := fun h => h1 (h ▸ hcanProc)
        have hkeys2 : ∀ z,
            (lookupS (dictSet
                (if nj.length < canonical.length then remapVal st.cmap canonical nj
                 else st.cmap)
                nj (if nj.length < canonical.length then nj else canonical)) z).isSome
              = true ↔ z ∈ nj :: st.processed := by
          intro z
          rw [lookupS_joinStep]
          by_cases hz : nj = z
          · simp [hz]
          · simp only [hz, if_false, List.mem_cons]
            cases hlz : lookupS st.cmap z with
            | none =>
              simp only [Option.map_none', Option.isSome_none, Bool.false_eq_true,
                false_iff]
              intro hor
              rcases hor with hza | hzp
              · exact hz (hza ▸ rfl)
              · have := (hkeys z).mpr hzp
                rw [hlz] at this
                simp at this
            | some v =>
              simp only [Option.map_some', Option.isSome_some, true_iff]
              right
              exact (hkeys z).mp (by simp [hlz])
        have hcan2 : lookupS (dictSet
              (if nj.length < canonical.length then remapVal st.cmap canonical nj
               else st.cmap)
              nj (if nj.length < canonical.length then nj else canonical))
            (if nj.length < canonical.length then nj else canonical)
          = some (if nj.length < canonical.length then nj else canonical) := by
          rw [lookupS_joinStep]
          by_cases L : nj.length < canonical.length
          · simp [L]
          · simp only [L, if_false]
            rw [if_neg hnjne, hcan]
            simp
        have hself2 : ∀ k v, lookupS (dictSet
              (if nj.length < canonical.length then remapVal st.cmap canonical nj
               else st.cmap)
              nj (if nj.length < canonical.length then nj else canonical)) k = some v →
            lookupS (dictSet
              (if nj.length < canonical.length then remapVal st.cmap canonical nj
               else st.cmap)
              nj (if nj.length < canonical.length then nj else canonical)) v = some v := by
          intro k v hkv
          rw [lookupS_joinStep] at hkv
          by_cases hk : nj = k
          · rw [if_pos hk] at hkv
            have hv : v = (if nj.length < canonical.length then nj else canonical) :=
              (Option.some_injective _ hkv).symm
            rw [hv]
            exact hcan2
          · rw [if_neg hk] at hkv
            cases hu : lookupS st.cmap k with
            | none =>
              rw [hu] at hkv
              simp at hkv
            | some u =>
              rw [hu] at hkv
              simp only [Option.map_some', Option.some_inj] at hkv
              by_cases huc : u = canonical
              · rw [if_pos huc] at hkv
                rw [← hkv]
                exact hcan2
              · rw [if_neg huc] at hkv
                have hu_self : lookupS st.cmap u = some u := hself k u hu
                have hu_proc : u ∈ st.processed := (hkeys u).mp (by simp [hu_self])
                have hnju : nj ≠ u := fun h => h1 (h ▸ hu_proc)
                rw [← hkv, lookupS_joinStep, if_neg hnju, hu_self]
                simp [huc]
        exact ih _ _ hkeys2 hself2 hcan2
      · rw [if_neg h2]
        exact ih canonical st hkeys hself hcan

/-- Outer-scan invariant bundle: key set mirrors processed set and every value
of the map is a key mapping to itself. -/
lemma outerScan_invariants (sim : String → String → ℚ) (t : ℚ) (all : List String)
    (rem : List String) :
    ∀ (st : ResSt),
      (∀ z, (lookupS st.cmap z).isSome = true ↔ z ∈ st.processed) →
      (∀ k v, lookupS st.cmap k = some v → lookupS st.cmap v = some v) →
      (∀ z, (lookupS (outerScan sim t all rem st).cmap z).isSome = true
          ↔ z ∈ (outerScan sim t all rem st).processed) ∧
      (∀ k v, lookupS (outerScan sim t all rem st).cmap k = some v →
        lookupS (outerScan sim t all rem st).cmap v = some v) := by
  induction rem with
  | nil =>
    intro st hkeys hself
    exact ⟨hkeys, hself⟩
  | cons ni rest ih =>
    intro st hkeys hself
    rw [outerScan]
    by_cases h1 : ni ∈ st.processed
    · rw [if_pos h1]
      exact ih st hkeys hself
    · rw [if_neg h1]
      have hfresh : lookupS st.cmap ni = none := by
        cases hlk : lookupS st.cmap ni with
        | none => rfl
        | some v => exact absurd ((hkeys ni).mp (by simp [hlk])) h1
      have hkeys1 : ∀ z, (lookupS (dictSet st.cmap ni ni) z).isSome = true
          ↔ z ∈ ni :: st.processed := by
        intro z
        rw [lookupS_dictSet]
        by_cases hz : ni = z
        · simp [hz]
        · simp only [hz, if_false, List.mem_cons]
          rw [hkeys z]
          constructor
          · exact Or.inr
          · intro hor
            rcases hor with hza | hzp
            · exact absurd (hza ▸ rfl) hz
            · exact hzp
      have hself1 : ∀ k v, lookupS (dictSet st.cmap ni ni) k = some v →
          lookupS (dictSet st.cmap ni ni) v = some v := by
        intro k v hkv
        rw [lookupS_dictSet] at hkv
        by_cases hk : ni = k
        · rw [if_pos hk] at hkv
          have hv : v = ni := (Option.some_injective _ hkv).symm
          rw [hv, lookupS_dictSet, if_pos rfl]
        · rw [if_neg hk] at hkv
          have hv_self : lookupS st.cmap v = some v := hself k v hkv
          have hv_proc : v ∈ st.processed := (hkeys v).mp (by simp [hv_self])
          have hniv : ni ≠ v := fun h => h1 (h ▸ hv_proc)
          rw [lookupS_dictSet, if_neg hniv]
          exact hv_self
      have hcan1 : lookupS (dictSet st.cmap ni ni) ni = some ni := by
        rw [lookupS_dictSet, if_pos rfl]
      obtain ⟨hkeys2, hself2, _⟩ :=
        innerScan_invariants sim t ni all ni ⟨dictSet st.cmap ni ni, ni :: st.processed⟩
          hkeys1 hself1 hcan1
      exact ih _ hkeys2 hself2

/-- Every name handed to the outer scan ends up processed, and the processed
set only grows. -/
lemma outerScan_processed (sim : String → String → ℚ) (t : ℚ) (all : List String)
    (rem : List String) :
    ∀ (st : ResSt),
      (∀ x ∈ st.processed, x ∈ (outerScan sim t all rem st).processed) ∧
      (∀ n ∈ rem, n ∈ (outerScan sim t all rem st).processed) := by
  induction rem with
  | nil =>
    intro st
    exact ⟨fun x hx => hx, fun n hn => absurd hn (List.not_mem_nil n)⟩
  | cons ni rest ih =>
    intro st
    rw [outerScan]
    by_cases h1 : ni ∈ st.processed
    · rw [if_pos h1]
      refine ⟨(ih st).1, fun n hn => ?_⟩
      rcases List.mem_cons.mp hn with hni | hr
      · subst hni
        exact (ih st).1 n h1
      · exact (ih st).2 n hr
    · rw [if_neg h1]
      have hmono1 : ∀ x ∈ st.processed,
          x ∈ (innerScan sim t ni all ni
            ⟨dictSet st.cmap ni ni, ni :: st.processed⟩).2.processed :=
        fun x hx => innerScan_processed_mono sim t ni all ni _ x
          (List.mem_cons_of_mem _ hx)
      have hmono_ni : ni ∈ (innerScan sim t ni all ni
          ⟨dictSet st.cmap ni ni, ni :: st.processed⟩).2.processed :=
        innerScan_processed_mono sim t ni all ni _ ni (List.mem_cons_self _ _)
      refine ⟨fun x hx => (ih _).1 x (hmono1 x hx), fun n hn => ?_⟩
      rcases List.mem_cons.mp hn with hni | hr
      · exact hni ▸ (ih _).1 ni hmono_ni
      · exact (ih _).2 n hr

/-- C5 (confirmed).  The canonical map is total over the input names
(duplicates included) and a fixed point under self-application: every value is
itself a key that maps to itself, hence `map[map[x]] = map[x]` for every key. -/
theorem c5_total_fixed_point (sim : String → String → ℚ) (threshold : ℚ)
    (entities : List Entity) :
    (∀ n ∈ entities.map Entity.name,
        (lookupS (resolve_entities sim entities threshold).cmap n).isSome = true) ∧
    (∀ k v, lookupS (resolve_entities sim entities threshold).cmap k = some v →
      lookupS (resolve_entities sim entities threshold).cmap v = some v) := by
  by_cases hlen : entities.length < 2
  · constructor
    · intro n hn
      simp [resolve_entities, hlen, lookupS_identMap, hn]
    · intro k v hkv
      simp only [resolve_entities, if_pos hlen] at hkv ⊢
      rw [lookupS_identMap] at hkv ⊢
      by_cases hk : k ∈ entities.map Entity.name
      · rw [if_pos hk] at hkv
        have : v = k := (Option.some_injective _ hkv).symm
        rw [this, if_pos hk]
      · rw [if_neg hk] at hkv
        exact absurd hkv (Option.noConfusion)
  · by_cases h2 : (uniqueNames (entities.map Entity.name)).length < 2
    · constructor
      · intro n hn
        simp [resolve_entities, hlen, h2, lookupS_identMap, hn]
      · intro k v hkv
        simp only [resolve_entities, if_neg hlen, if_pos h2] at hkv ⊢
        rw [lookupS_identMap] at hkv ⊢
        by_cases hk : k ∈ entities.map Entity.name
        · rw [if_pos hk] at hkv
          have : v = k := (Option.some_injective _ hkv).symm
          rw [this, if_pos hk]
        · rw [if_neg hk] at hkv
          exact absurd hkv (Option.noConfusion)
    · have hbase_keys : ∀ z, (lookupS (⟨[], []⟩ : ResSt).cmap z).isSome = true
          ↔ z ∈ (⟨[], []⟩ : ResSt).processed := by
        intro z
        simp [lookupS]
      have hbase_self : ∀ k v, lookupS (⟨[], []⟩ : ResSt).cmap k = some v →
          lookupS (⟨[], []⟩ : ResSt).cmap v = some v := by
        intro k v hkv
        simp [lookupS] at hkv
      obtain ⟨hkeysF, hselfF⟩ := outerScan_invariants sim threshold
        (uniqueNames (entities.map Entity.name))
        (uniqueNames (entities.map Entity.name)) ⟨[], []⟩ hbase_keys hbase_self
      constructor
      · intro n hn
        simp only [resolve_entities, if_neg hlen, if_neg h2]
        refine (hkeysF n).mpr ?_
        exact (outerScan_processed sim threshold _ _ ⟨[], []⟩).2 n
          ((mem_uniqueNames _ n).mpr hn)
      · intro k v hkv
        simp only [resolve_entities, if_neg hlen, if_neg h2] at hkv ⊢
        exact hselfF k v hkv

/-- Witness for `c5_total_fixed_point` on a two-entity list. -/
theorem c5_total_fixed_point_witness :
    (lookupS (resolve_entities (fun _ _ => 1)
        [{ name := "Dr. Chen" }, { name := "chen" }] (mkRat 85 100)).cmap
      "Dr. Chen").isSome = true ∧
    lookupS (resolve_entities (fun _ _ => 1)
        [{ name := "Dr. Chen" }, { name := "chen" }] (mkRat 85 100)).cmap "chen"
      = some "chen" := by
  have h := c5_total_fixed_point (fun _ _ => 1) (mkRat 85 100)
    [{ name := "Dr. Chen" }, { name := "chen" }]
  exact ⟨h.1 "Dr. Chen" (by decide), h.2 "Dr. Chen" "chen" (by decide)⟩

/-- The inner scan preserves the canonical-minimality invariant: every key
maps to a value no longer than itself. -/
lemma innerScan_minimal (sim : String → String → ℚ) (t : ℚ) (seed : String)
    (js : List String) :
    ∀ (canonical : String) (st : ResSt),
      (∀ k v, lookupS st.cmap k = some v → v.length ≤ k.length) →
      ∀ k v, lookupS (innerScan sim t seed js canonical st).2.cmap k = some v →
        v.length ≤ k.length := by
  induction js with
  | nil =>
    intro c st hmin
    exact hmin
  | cons nj rest ih =>
    intro c st hmin
    rw [innerScan]
    by_cases h1 : nj ∈ st.processed
    · rw [if_pos h1]
      exact ih c st hmin
    · rw [if_neg h1]
      by_cases h2 : t ≤ sim seed nj
      · rw [if_pos h2]
        refine ih _ _ ?_
        intro k v hkv
        rw [lookupS_joinStep] at hkv
        by_cases hk : nj = k
        · rw [if_pos hk] at hkv
          have hv : v = (if nj.length < c.length then nj else c) :=
            (Option.some_injective _ hkv).symm
          subst hk
          rw [hv]
          by_cases L : nj.length < c.length
          · rw [if_pos L]
          · rw [if_neg L]
            omega
        · rw [if_neg hk] at hkv
          cases hu : lookupS st.cmap k with
          | none =>
            rw [hu] at hkv
            simp at hkv
          | some u =>
            rw [hu] at hkv
            simp only [Option.map_some', Option.some_inj] at hkv
            have hu_min : u.length ≤ k.length := hmin k u hu
            by_cases huc : u = c
            · subst huc
              rw [if_pos rfl] at hkv
              by_cases L : nj.length < u.length
              · rw [if_pos L] at hkv
                rw [← hkv]
                omega
              · rw [if_neg L] at hkv
                rw [← hkv]
                exact hu_min
            · rw [if_neg huc] at hkv
              rw [← hkv]
              exact hu_min
      · rw [if_neg h2]
        exact ih c st hmin

/-- The outer scan preserves the canonical-minimality invariant. -/
lemma outerScan_minimal (sim : String → String → ℚ) (t : ℚ) (all : List String)
    (rem : List String) :
    ∀ (st : ResSt),
      (∀ k v, lookupS st.cmap k = some v → v.length ≤ k.length) →
      ∀ k v, lookupS (outerScan sim t all rem st).cmap k = some v →
        v.length ≤ k.length := by
  induction rem with
  | nil =>
    intro st hmin
    exact hmin
  | cons ni rest ih =>
    intro st hmin
    rw [outerScan]
    by_cases h1 : ni ∈ st.processed
    · rw [if_pos h1]
      exact ih st hmin
    · rw [if_neg h1]
      refine ih _ (innerScan_minimal sim t ni all ni _ ?_)
      intro k v hkv
      rw [lookupS_dictSet] at hkv
      by_cases hk : ni = k
      · rw [if_pos hk] at hkv
        have hv : v = ni := (Option.some_injective _ hkv).symm
        subst hk
        rw [hv]
      · rw [if_neg hk] at hkv
        exact hmin k v hkv

/-- C7 (confirmed).  Canonical minimality: every name the canonical map
covers is sent to a canonical name no longer than itself, i.e. for every
cluster the canonical name's length is a lower bound of all its aliases'
lengths. -/
theorem c7_canonical_minimality (sim : String → String → ℚ) (threshold : ℚ)
    (entities : List Entity) :
    ∀ k v, lookupS (resolve_entities sim entities threshold).cmap k = some v →
      v.length ≤ k.length := by
  intro k v hkv
  by_cases hlen : entities.length < 2
  · simp only [resolve_entities, if_pos hlen] at hkv
    rw [lookupS_identMap] at hkv
    by_cases hk : k ∈ entities.map Entity.name
    · rw [if_pos hk] at hkv
      have : v = k := (Option.some_injective _ hkv).symm
      rw [this]
    · rw [if_neg hk] at hkv
      exact absurd hkv (Option.noConfusion)
  · by_cases h2 : (uniqueNames (entities.map Entity.name)).length < 2
    · simp only [resolve_entities, if_neg hlen, if_pos h2] at hkv
      rw [lookupS_identMap] at hkv
      by_cases hk : k ∈ entities.map Entity.name
      · rw [if_pos hk] at hkv
        have : v = k := (Option.some_injective _ hkv).symm
        rw [this]
      · rw [if_neg hk] at hkv
        exact absurd hkv (Option.noConfusion)
    · simp only [resolve_entities, if_neg hlen, if_neg h2] at hkv
      refine outerScan_minimal sim threshold _ _ ⟨[], []⟩ ?_ k v hkv
      intro k' v' hkv'
      simp [lookupS] at hkv'

/-- Witness for `c7_canonical_minimality`: `"Dr. Chen"` resolves to the
shorter alias `"chen"`. -/
theorem c7_canonical_minimality_witness :
    lookupS (resolve_entities (fun _ _ => 1)
        [{ name := "Dr. Chen" }, { name := "chen" }] (mkRat 85 100)).cmap "Dr. Chen"
      = some "chen" ∧
    ("chen" : String).length ≤ ("Dr. Chen" : String).length :=
  ⟨by decide,
   c7_canonical_minimality (fun _ _ => 1) (mkRat 85 100)
     [{ name := "Dr. Chen" }, { name := "chen" }] "Dr. Chen" "chen" (by decide)⟩

/-- Every scanned name similar to the seed ends up processed. -/
lemma innerScan_absorbs (sim : String → String → ℚ) (t : ℚ) (seed : String)
    (js : List String) :
    ∀ (canonical : String) (st : ResSt) (j : String), j ∈ js → t ≤ sim seed j →
      j ∈ (innerScan sim t seed js canonical st).2.processed := by
  induction js with
  | nil =>
    intro c st j hj _
    exact absurd hj (List.not_mem_nil j)
  | cons nj rest ih =>
    intro c st j hj hsim
    rw [innerScan]
    by_cases h1 : nj ∈ st.processed
    · rw [if_pos h1]
      rcases List.mem_cons.mp hj with hje | hjr
      · subst hje
        exact innerScan_processed_mono sim t seed rest c st j h1
      · exact ih c st j hjr hsim
    · rw [if_neg h1]
      by_cases h2 : t ≤ sim seed nj
      · rw [if_pos h2]
        rcases List.mem_cons.mp hj with hje | hjr
        · subst hje
          exact innerScan_processed_mono sim t seed rest _ _ j (List.mem_cons_self _ _)
        · exact ih _ _ j hjr hsim
      · rw [if_neg h2]
        rcases List.mem_cons.mp hj with hje | hjr
        · subst hje
          exact absurd hsim h2
        · exact ih c st j hjr hsim

/-- Names processed by the inner scan that were not processed before are
scanned names similar to the seed. -/
lemma innerScan_new_processed (sim : String → String → ℚ) (t : ℚ) (seed : String)
    (js : List String) :
    ∀ (canonical : String) (st : ResSt) (x : String),
      x ∈ (innerScan sim t seed js canonical st).2.processed → x ∉ st.processed →
      x ∈ js ∧ t ≤ sim seed x := by
  induction js with
  | nil =>
    intro c st x hx hnx
    exact absurd hx hnx
  | cons nj rest ih =>
    intro c st x hx hnx
    rw [innerScan] at hx
    by_cases h1 : nj ∈ st.processed
    · rw [if_pos h1] at hx
      obtain ⟨hr, hs⟩ := ih c st x hx hnx
      exact ⟨List.mem_cons_of_mem _ hr, hs⟩
    · rw [if_neg h1] at hx
      by_cases h2 : t ≤ sim seed nj
      · rw [if_pos h2] at hx
        by_cases hx2 : x ∈ nj :: st.processed
        · rcases List.mem_cons.mp hx2 with hxe | hxp
          · subst hxe
            exact ⟨List.mem_cons_self _ _, h2⟩
          · exact absurd hxp hnx
        · obtain ⟨hr, hs⟩ := ih _ _ x hx hx2
          exact ⟨List.mem_cons_of_mem _ hr, hs⟩
      · rw [if_neg h2] at hx
        obtain ⟨hr, hs⟩ := ih c st x hx hnx
        exact ⟨List.mem_cons_of_mem _ hr, hs⟩

/-- The inner scan rewrites the values of existing keys uniformly: two keys
with equal lookups keep equal lookups. -/
lemma innerScan_preserves_eq (sim : String → String → ℚ) (t : ℚ) (seed : String)
    (js : List String) :
    ∀ (canonical : String) (st : ResSt),
      (∀ z, (lookupS st.cmap z).isSome = true → z ∈ st.processed) →
      ∀ x y, (lookupS st.cmap x).isSome = true → (lookupS st.cmap y).isSome = true →
        lookupS st.cmap x = lookupS st.cmap y →
        lookupS (innerScan sim t seed js canonical st).2.cmap x
          = lookupS (innerScan sim t seed js canonical st).2.cmap y := by
  induction js with
  | nil =>
    intro c st _ x y _ _ hxy
    exact hxy
  | cons nj rest ih =>
    intro c st hsub x y hx hy hxy
    rw [innerScan]
    by_cases h1 : nj ∈ st.processed
    · rw [if_pos h1]
      exact ih c st hsub x y hx hy hxy
    · rw [if_neg h1]
      by_cases h2 : t ≤ sim seed nj
      · rw [if_pos h2]
        have hnjx : nj ≠ x := fun h => h1 (h ▸ hsub x hx)
        have hnjy : nj ≠ y := fun h => h1 (h ▸ hsub y hy)
        have hx2 : lookupS (dictSet
            (if nj.length < c.length then remapVal st.cmap c nj else st.cmap)
            nj (if nj.length < c.length then nj else c)) x
            = (lookupS st.cmap x).map
              (fun v => if v = c then (if nj.length < c.length then nj else c) else v) := by
          rw [lookupS_joinStep, if_neg hnjx]
        have hy2 : lookupS (dictSet
            (if nj.length < c.length then remapVal st.cmap c nj else st.cmap)
            nj (if nj.length < c.length then nj else c)) y
            = (lookupS st.cmap y).map
              (fun v => if v = c then (if nj.length < c.length then nj else c) else v) := by
          rw [lookupS_joinStep, if_neg hnjy]
        have hsub2 : ∀ z, (lookupS (dictSet
            (if nj.length < c.length then remapVal st.cmap c nj else st.cmap)
            nj (if nj.length < c.length then nj else c)) z).isSome = true →
            z ∈ nj :: st.processed := by
          intro z hz
          rw [lookupS_joinStep] at hz
          by_cases hzj : nj = z
          · exact hzj ▸ List.mem_cons_self _ _
          · rw [if_neg hzj] at hz
            cases hlz : lookupS st.cmap z with
            | none =>
              rw [hlz] at hz
              simp at hz
            | some v =>
              exact List.mem_cons_of_mem _ (hsub z (by simp [hlz]))
        refine ih _ _ hsub2 x y ?_ ?_ ?_
        · rw [hx2]
          cases hxv : lookupS st.cmap x with
          | none =>
            rw [hxv] at hx
            simp at hx
          | some v => simp
        · rw [hy2]
          cases hyv : lookupS st.cmap y with
          | none =>
            rw [hyv] at hy
            simp at hy
          | some v => simp
        · rw [hx2, hy2, hxy]
      · rw [if_neg h2]
        exact ih c st hsub x y hx hy hxy

/-- Every name the inner scan absorbs ends the scan with the same lookup as
the seed. -/
lemma innerScan_new_maps_to_seed (sim : String → String → ℚ) (t : ℚ) (seed : String)
    (js : List String) :
    ∀ (canonical : String) (st : ResSt),
      (∀ z, (lookupS st.cmap z).isSome = true → z ∈ st.processed) →
      seed ∈ st.processed →
      lookupS st.cmap seed = some canonical →
      ∀ x, x ∈ (innerScan sim t seed js canonical st).2.processed →
        x ∉ st.processed →
        lookupS (innerScan sim t seed js canonical st).2.cmap x
          = lookupS (innerScan sim t seed js canonical st).2.cmap seed := by
  induction js with
  | nil =>
    intro c st _ _ _ x hx hnx
    exact absurd hx hnx
  | cons nj rest ih =>
    intro c st hsub hseedp hseed x hx hnx
    rw [innerScan] at hx ⊢
    by_cases h1 : nj ∈ st.processed
    · rw [if_pos h1] at hx ⊢
      exact ih c st hsub hseedp hseed x hx hnx
    · rw [if_neg h1] at hx ⊢
      by_cases h2 : t ≤ sim seed nj
      · rw [if_pos h2] at hx ⊢
        have hnjseed : nj ≠ seed := fun h => h1 (h ▸ hseedp)
        have hseed2 : lookupS (dictSet
            (if nj.length < c.length then remapVal st.cmap c nj else st.cmap)
            nj (if nj.length < c.length then nj else c)) seed
            = some (if nj.length < c.length then nj else c) := by
          rw [lookupS_joinStep, if_neg hnjseed, hseed]
          simp
        have hnj2 : lookupS (dictSet
            (if nj.length < c.length then remapVal st.cmap c nj else st.cmap)
            nj (if nj.length < c.length then nj else c)) nj
            = some (if nj.length < c.length then nj else c) := by
          rw [lookupS_joinStep, if_pos rfl]
        have hsub2 : ∀ z, (lookupS (dictSet
            (if nj.length < c.length then remapVal st.cmap c nj else st.cmap)
            nj (if nj.length < c.length then nj else c)) z).isSome = true →
            z ∈ nj :: st.processed := by
          intro z hz
          rw [lookupS_joinStep] at hz
          by_cases hzj : nj = z
          · exact hzj ▸ List.mem_cons_self _ _
          · rw [if_neg hzj] at hz
            cases hlz : lookupS st.cmap z with
            | none =>
              rw [hlz] at hz
              simp at hz
            | some v =>
              exact List.mem_cons_of_mem _ (hsub z (by simp [hlz]))
        by_cases hxnj : x = nj
        · subst hxnj
          exact innerScan_preserves_eq sim t seed rest _ _ hsub2 x seed
            (by simp [hnj2]) (by simp [hseed2]) (hnj2.trans hseed2.symm)
        · have hx1 : x ∉ nj :: st.processed := by
            intro hmem
            rcases List.mem_cons.mp hmem with he | hp
            · exact hxnj he
            · exact hnx hp
          exact ih _ _ hsub2 (List.mem_cons_of_mem _ hseedp) hseed2 x hx hx1
      · rw [if_neg h2] at hx ⊢
        exact ih c st hsub hseedp hseed x hx hnx

/-- Inserting a fresh seed as its own canonical preserves the key/processed
correspondence and self-closure, and the seed maps to itself. -/
lemma dictSet_seed_invariants (st : ResSt) (ni : String)
    (hkeys : ∀ z, (lookupS st.cmap z).isSome = true ↔ z ∈ st.processed)
    (hself : ∀ k v, lookupS st.cmap k = some v → lookupS st.cmap v = some v)
    (h1 : ni ∉ st.processed) :
    (∀ z, (lookupS (dictSet st.cmap ni ni) z).isSome = true ↔ z ∈ ni :: st.processed) ∧
    (∀ k v, lookupS (dictSet st.cmap ni ni) k = some v →
      lookupS (dictSet st.cmap ni ni) v = some v) ∧
    lookupS (dictSet st.cmap ni ni) ni = some ni := by
  refine ⟨?_, ?_, by rw [lookupS_dictSet, if_pos rfl]⟩
  · intro z
    rw [lookupS_dictSet]
    by_cases hz : ni = z
    · simp [hz]
    · simp only [hz, if_false, List.mem_cons]
      rw [hkeys z]
      constructor
      · exact Or.inr
      · intro hor
        rcases hor with hza | hzp
        · exact absurd (hza ▸ rfl) hz
        · exact hzp
  · intro k v hkv
    rw [lookupS_dictSet] at hkv
    by_cases hk : ni = k
    · rw [if_pos hk] at hkv
      have hv : v = ni := (Option.some_injective _ hkv).symm
      rw [hv, lookupS_dictSet, if_pos rfl]
    · rw [if_neg hk] at hkv
      have hv_self : lookupS st.cmap v = some v := hself k v hkv
      have hv_proc : v ∈ st.processed := (hkeys v).mp (by simp [hv_self])
      have hniv : ni ≠ v := fun h => h1 (h ▸ hv_proc)
      rw [lookupS_dictSet, if_neg hniv]
      exact hv_self

/-- Outer-scan closure: if the at-threshold similarity relation is symmetric
and transitive, any two processed names that meet the threshold share a
lookup. -/
lemma outerScan_closure (sim : String → String → ℚ) (t : ℚ) (all : List String)
    (hsymm : ∀ x y, sim x y = sim y x)
    (htrans : ∀ x y z, t ≤ sim x y → t ≤ sim y z → t ≤ sim x z)
    (rem : List String) :
    ∀ (st : ResSt),
      (∀ n ∈ rem, n ∈ all) →
      (∀ z, (lookupS st.cmap z).isSome = true ↔ z ∈ st.processed) →
      (∀ k v, lookupS st.cmap k = some v → lookupS st.cmap v = some v) →
      (∀ x ∈ st.processed, ∀ y ∈ all, y ∉ st.processed → ¬ t ≤ sim x y) →
      (∀ x ∈ st.processed, ∀ y ∈ st.processed, t ≤ sim x y →
        lookupS st.cmap x = lookupS st.cmap y) →
      ∀ x ∈ (outerScan sim t all rem st).processed,
        ∀ y ∈ (outerScan sim t all rem st).processed, t ≤ sim x y →
        lookupS (outerScan sim t all rem st).cmap x
          = lookupS (outerScan sim t all rem st).cmap y := by
  induction rem with
  | nil =>
    intro st _ _ _ _ I2
    exact I2
  | cons ni rest ih =>
    intro st hsub hkeys hself I1 I2
    rw [outerScan]
    by_cases h1 : ni ∈ st.processed
    · rw [if_pos h1]
      exact ih st (fun n hn => hsub n (List.mem_cons_of_mem _ hn)) hkeys hself I1 I2
    · rw [if_neg h1]
      obtain ⟨hkeys1, hself1, hcan1⟩ := dictSet_seed_invariants st ni hkeys hself h1
      -- the state after the seed insertion
      have hniall : ni ∈ all := hsub ni (List.mem_cons_self _ _)
      obtain ⟨hkeys2, hself2, _⟩ :=
        innerScan_invariants sim t ni all ni ⟨dictSet st.cmap ni ni, ni :: st.processed⟩
          hkeys1 hself1 hcan1
      have hmono2 : ∀ z ∈ ni :: st.processed,
          z ∈ (innerScan sim t ni all ni
            ⟨dictSet st.cmap ni ni, ni :: st.processed⟩).2.processed :=
        fun z hz => innerScan_processed_mono sim t ni all ni _ z hz
      have habsorb : ∀ j ∈ all, t ≤ sim ni j →
          j ∈ (innerScan sim t ni all ni
            ⟨dictSet st.cmap ni ni, ni :: st.processed⟩).2.processed :=
        fun j hj hs => innerScan_absorbs sim t ni all ni _ j hj hs
      have hnew : ∀ z, z ∈ (innerScan sim t ni all ni
            ⟨dictSet st.cmap ni ni, ni :: st.processed⟩).2.processed →
          z ∉ ni :: st.processed → z ∈ all ∧ t ≤ sim ni z :=
        fun z hz hnz => innerScan_new_processed sim t ni all ni _ z hz hnz
      -- membership in all for any newly processed name
      have hnewall : ∀ z, z ∈ (innerScan sim t ni all ni
            ⟨dictSet st.cmap ni ni, ni :: st.processed⟩).2.processed →
          z ∉ st.processed → z ∈ all := by
        intro z hz hnz
        by_cases hzni : z = ni
        · exact hzni ▸ hniall
        · exact (hnew z hz (fun hmem => by
            rcases List.mem_cons.mp hmem with he | hp
            · exact hzni he
            · exact hnz hp)).1
      -- similarity to the seed for any newly processed name
      have hnewsim : ∀ z, z ∈ (innerScan sim t ni all ni
            ⟨dictSet st.cmap ni ni, ni :: st.processed⟩).2.processed →
          z ∉ st.processed → z ≠ ni → t ≤ sim ni z := by
        intro z hz hnz hzni
        exact (hnew z hz (fun hmem => by
          rcases List.mem_cons.mp hmem with he | hp
          · exact hzni he
          · exact hnz hp)).2
      -- I1 for the post-inner-scan state
      have I1₂ : ∀ x ∈ (innerScan sim t ni all ni
            ⟨dictSet st.cmap ni ni, ni :: st.processed⟩).2.processed,
          ∀ y ∈ all, y ∉ (innerScan sim t ni all ni
            ⟨dictSet st.cmap ni ni, ni :: st.processed⟩).2.processed →
          ¬ t ≤ sim x y := by
        intro x hx y hyall hyn hsim
        by_cases hxold : x ∈ st.processed
        · exact I1 x hxold y hyall
            (fun hyp => hyn (hmono2 y (List.mem_cons_of_mem _ hyp))) hsim
        · by_cases hxni : x = ni
          · subst hxni
            exact hyn (habsorb y hyall hsim)
          · have hxsim : t ≤ sim ni x := hnewsim x hx hxold hxni
            exact hyn (habsorb y hyall (htrans ni x y hxsim hsim))
      -- I2 for the post-inner-scan state
      have I2₂ : ∀ x ∈ (innerScan sim t ni all ni
            ⟨dictSet st.cmap ni ni, ni :: st.processed⟩).2.processed,
          ∀ y ∈ (innerScan sim t ni all ni
            ⟨dictSet st.cmap ni ni, ni :: st.processed⟩).2.processed,
          t ≤ sim x y →
          lookupS (innerScan sim t ni all ni
            ⟨dictSet st.cmap ni ni, ni :: st.processed⟩).2.cmap x
            = lookupS (innerScan sim t ni all ni
              ⟨dictSet st.cmap ni ni, ni :: st.processed⟩).2.cmap y := by
        intro x hx y hy hsim
        by_cases hxold : x ∈ st.processed <;> by_cases hyold : y ∈ st.processed
        · -- both previously processed
          have hxy_old : lookupS st.cmap x = lookupS st.cmap y := I2 x hxold y hyold hsim
          have hnix : ni ≠ x := fun h => h1 (h ▸ hxold)
          have hniy : ni ≠ y := fun h => h1 (h ▸ hyold)
          have hx1 : lookupS (dictSet st.cmap ni ni) x = lookupS st.cmap x := by
            rw [lookupS_dictSet, if_neg hnix]
          have hy1 : lookupS (dictSet st.cmap ni ni) y = lookupS st.cmap y := by
            rw [lookupS_dictSet, if_neg hniy]
          refine innerScan_preserves_eq sim t ni all ni
            ⟨dictSet st.cmap ni ni, ni :: st.processed⟩
            (fun z hz => (hkeys1 z).mp hz) x y ?_ ?_ ?_
          · rw [hx1]
            exact (hkeys x).mpr hxold
          · rw [hy1]
            exact (hkeys y).mpr hyold
          · rw [hx1, hy1, hxy_old]
        · -- x old, y new: impossible, the relation cannot cross the boundary
          exact absurd hsim (I1 x hxold y (hnewall y hy hyold) hyold)
        · -- x new, y old: impossible by symmetry
          have hsim' : t ≤ sim y x := by
            rw [hsymm y x]
            exact hsim
          exact absurd hsim' (I1 y hyold x (hnewall x hx hxold) hxold)
        · -- both new: both share the seed's lookup
          have hx1 : x ∉ st.processed := hxold
          have hy1 : y ∉ st.processed := hyold
          have hxval : lookupS (innerScan sim t ni all ni
              ⟨dictSet st.cmap ni ni, ni :: st.processed⟩).2.cmap x
              = lookupS (innerScan sim t ni all ni
                ⟨dictSet st.cmap ni ni, ni :: st.processed⟩).2.cmap ni := by
            by_cases hxni : x = ni
            · rw [hxni]
            · exact innerScan_new_maps_to_seed sim t ni all ni
                ⟨dictSet st.cmap ni ni, ni :: st.processed⟩
                (fun z hz => (hkeys1 z).mp hz) (List.mem_cons_self _ _) hcan1 x hx
                (fun hmem => by
                  rcases List.mem_cons.mp hmem with he | hp
                  · exact hxni he
                  · exact hx1 hp)
          have hyval : lookupS (innerScan sim t ni all ni
              ⟨dictSet st.cmap ni ni, ni :: st.processed⟩).2.cmap y
              = lookupS (innerScan sim t ni all ni
                ⟨dictSet st.cmap ni ni, ni :: st.processed⟩).2.cmap ni := by
            by_cases hyni : y = ni
            · rw [hyni]
            · exact innerScan_new_maps_to_seed sim t ni all ni
                ⟨dictSet st.cmap ni ni, ni :: st.processed⟩
                (fun z hz => (hkeys1 z).mp hz) (List.mem_cons_self _ _) hcan1 y hy
                (fun hmem => by
                  rcases List.mem_cons.mp hmem with he | hp
                  · exact hyni he
                  · exact hy1 hp)
          rw [hxval, hyval]
      exact ih _ (fun n hn => hsub n (List.mem_cons_of_mem _ hn)) hkeys2 hself2 I1₂ I2₂

lemma uniqueNames_length_le (l : List String) :
    (uniqueNames l).length ≤ l.length := by
  induction l with
  | nil => simp [uniqueNames]
  | cons a l ih =>
    simp only [uniqueNames, List.length_cons]
    have := List.length_filter_le (fun m => m != a) (uniqueNames l)
    omega

lemma eq_of_mem_of_length_lt_two {α : Type} (l : List α) (h : l.length < 2)
    {a b : α} (ha : a ∈ l) (hb : b ∈ l) : a = b := by
  rcases l with _ | ⟨x, rest⟩
  · exact absurd ha (List.not_mem_nil a)
  · rcases rest with _ | ⟨y, t⟩
    · rw [List.mem_singleton] at ha hb
      rw [ha, hb]
    · exfalso
      simp only [List.length_cons] at h
      omega

/-- C3 (amended).  Cluster closure holds when the at-threshold similarity
relation is symmetric and transitive: for any two input names with
`threshold ≤ sim a b`, the canonical map sends `a` and `b` to the same
canonical name.  (Without transitivity the property fails; see the
counterexample.) -/
theorem c3_cluster_closure_of_transitive (sim : String → String → ℚ)
    (threshold : ℚ) (entities : List Entity) (a b : String)
    (hsymm : ∀ x y, sim x y = sim y x)
    (htrans : ∀ x y z, threshold ≤ sim x y → threshold ≤ sim y z →
      threshold ≤ sim x z)
    (ha : a ∈ entities.map Entity.name) (hb : b ∈ entities.map Entity.name)
    (hab : threshold ≤ sim a b) :
    lookupS (resolve_entities sim entities threshold).cmap a
      = lookupS (resolve_entities sim entities threshold).cmap b := by
  by_cases h2 : (uniqueNames (entities.map Entity.name)).length < 2
  · have hau := (mem_uniqueNames _ a).mpr ha
    have hbu := (mem_uniqueNames _ b).mpr hb
    have hab' : a = b := eq_of_mem_of_length_lt_two _ h2 hau hbu
    rw [hab']
  · have hlen : ¬ entities.length < 2 := by
      intro hl
      have h1 : (entities.map Entity.name).length < 2 := by
        rw [List.length_map]
        exact hl
      exact h2 (lt_of_le_of_lt (uniqueNames_length_le _) h1)
    simp only [resolve_entities, if_neg hlen, if_neg h2]
    have hproc := outerScan_processed sim threshold
      (uniqueNames (entities.map Entity.name))
      (uniqueNames (entities.map Entity.name)) ⟨[], []⟩
    refine outerScan_closure sim threshold _ hsymm htrans _ ⟨[], []⟩
      (fun n hn => hn) ?_ ?_ ?_ ?_ a ?_ b ?_ hab
    · intro z
      simp [lookupS]
    · intro k v hkv
      simp [lookupS] at hkv
    · intro x hx
      exact absurd hx (List.not_mem_nil x)
    · intro x hx
      exact absurd hx (List.not_mem_nil x)
    · exact hproc.2 a ((mem_uniqueNames _ a).mpr ha)
    · exact hproc.2 b ((mem_uniqueNames _ b).mpr hb)

/-- Witness for `c3_cluster_closure_of_transitive` with a constant similarity. -/
theorem c3_cluster_closure_of_transitive_witness :
    lookupS (resolve_entities (fun _ _ => 1)
        [{ name := "Dr. Chen" }, { name := "chen" }] (mkRat 85 100)).cmap "Dr. Chen"
      = lookupS (resolve_entities (fun _ _ => 1)
        [{ name := "Dr. Chen" }, { name := "chen" }] (mkRat 85 100)).cmap "chen" :=
  c3_cluster_closure_of_transitive (fun _ _ => 1) (mkRat 85 100)
    [{ name := "Dr. Chen" }, { name := "chen" }] "Dr. Chen" "chen"
    (fun _ _ => rfl) (fun _ _ _ h _ => h) (by decide) (by decide) (by decide)

/-- C3 (counterexample).  With a non-transitive similarity (`bb`/`cc` and
`aa`/`cc` similar, `aa`/`bb` not), the greedy pass absorbs `cc` into `aa`'s
cluster first, so `bb` and `cc` end up with different canonicals even though
their similarity meets the threshold. -/
theorem c3_cluster_closure_counterexample :
    mkRat 85 100 ≤ simCex "bb" "cc" ∧
    lookupS (resolve_entities simCex
        [{ name := "aa" }, { name := "bb" }, { name := "cc" }]).cmap "bb"
      = some "bb" ∧
    lookupS (resolve_entities simCex
        [{ name := "aa" }, { name := "bb" }, { name := "cc" }]).cmap "cc"
      = some "aa" ∧
    lookupS (resolve_entities simCex
        [{ name := "aa" }, { name := "bb" }, { name := "cc" }]).cmap "bb"
      ≠ lookupS (resolve_entities simCex
        [{ name := "aa" }, { name := "bb" }, { name := "cc" }]).cmap "cc" := by
  decide
